import Mathlib

/-!
Verification of the MiniReturnn torch data pipeline
(`src/returnn/torch/data/pipeline.py`): the collator (`collate_batch`),
the chunker (`ChunkingIterDataPipe`) and the batcher
(`BatchingIterDataPipe`), as a shallow embedding.

Modelling conventions:
* numpy arrays / torch tensors are modelled with 0, 1 or 2 axes over `Int`
  entries (`Value.arr0`, `Value.arr1`, `Value.arr2`); plain Python ints and
  strings (e.g. `seq_idx`, `seq_tag`) are `Value.intV` / `Value.strV`.
  The `uint32 -> int64` widening of `create_tensor` is the identity here
  since entries are unbounded `Int`.
* Python exceptions (assert failures, `KeyError`, `ValueError`,
  `RuntimeError` from `pad_sequence`) are modelled by `Except String` /
  `Option` error results.
* `returnn.util.basic.NumbersDict` is imported by the pipeline but its code
  is not part of the sources; it is modelled from the spec (see
  `NumbersDict` below).
-/

/-- A field value of a record: a numeric array with 0, 1 or 2 axes, or a
plain (non-array) int or string. -/
inductive Value where
  | arr0 (v : Int)
  | arr1 (xs : List Int)
  | arr2 (xss : List (List Int))
  | intV (n : Int)
  | strV (s : String)
deriving DecidableEq, Repr

/-- A record: an ordered mapping field name -> value (a Python dict). -/
abbrev Record := List (String × Value)

/-- Dict lookup `r[k]` (first binding wins, as in a Python dict with
distinct keys). -/
def lookupR (r : Record) (k : String) : Option Value :=
  r.lookup k

/-- Test for numeric arrays with at least one axis (things that
`create_tensor` turns into tensors with `num_axis > 0`). -/
def isArr : Value → Bool
  | .arr1 _ => true
  | .arr2 _ => true
  | _ => false

/-- The `shape[0]` of an array value with at least one axis (0 otherwise). -/
def shape0 : Value → Nat
  | .arr1 xs => xs.length
  | .arr2 xss => xss.length
  | _ => 0

/-! ## Collator (`collate_batch`, pipeline.py lines 54-83) -/

/-- The collated batch values: stacked tensors of 1, 2 or 3 axes, a scalar
tensor (for `<key>:size0`), or the plain list passed through for
non-tensor values. -/
inductive CValue where
  | ctens1 (xs : List Int)
  | ctens2 (xss : List (List Int))
  | ctens3 (xsss : List (List (List Int)))
  | cscalar (n : Nat)
  | clist (vs : List Value)
deriving DecidableEq, Repr

/-- Maximum length of the lists in `ls` (the padded length chosen by
`torch.nn.utils.rnn.pad_sequence`). -/
def maxLenN (ls : List (List α)) : Nat :=
  ls.foldr (fun xs m => Nat.max xs.length m) 0

/-- Right-pad `xs` with `0` to length `m`. -/
def padTo (m : Nat) (xs : List Int) : List Int :=
  xs ++ List.replicate (m - xs.length) 0

/-- Model of `pad_sequence(ls, batch_first=True, padding_value=0)` on 1-D tensors:
right-pad each list with zeros to the common maximum length. -/
def padSequence1 (ls : List (List Int)) : List (List Int) :=
  ls.map (padTo (maxLenN ls))

/-- Whether every row of a 2-D array has width `w`. -/
def rowsAllWidth (xss : List (List Int)) (w : Nat) : Bool :=
  xss.all (fun row => row.length = w)

/-- Width (`shape[1]`) read off a 2-D array value: length of its first row
(0 for an array with no rows). -/
def width0 (xss : List (List Int)) : Nat :=
  (xss.head?.map List.length).getD 0

/-- Check that `pad_sequence` accepts a batch of 2-D tensors: it demands equal trailing
dimensions; return the common row width, or `none` (the `RuntimeError`)
when the widths disagree. -/
def commonWidth? (zs : List (List (List Int))) : Option Nat :=
  match zs with
  | [] => none
  | x :: xs =>
      if (x :: xs).all (fun xss => rowsAllWidth xss (width0 x)) then some (width0 x)
      else none

/-- Model of `pad_sequence` on 2-D tensors of common row width `w`: right-pad each
with all-zero rows to the common maximum leading extent. -/
def padSequence2 (w : Nat) (zs : List (List (List Int))) : List (List (List Int)) :=
  zs.map (fun xss => xss ++ List.replicate (maxLenN zs - xss.length) (List.replicate w 0))

/-- Projection used by the collator for 1-D values: `some xs` for `arr1 xs`,
else `none` (a mixed batch makes `pad_sequence` / `torch.stack` raise). -/
def asArr1 : Value → Option (List Int)
  | .arr1 xs => some xs
  | _ => none

/-- Projection for 2-D values. -/
def asArr2 : Value → Option (List (List Int))
  | .arr2 xss => some xss
  | _ => none

/-- Projection for 0-D values. -/
def asArr0 : Value → Option Int
  | .arr0 v => some v
  | _ => none

/-- The body of the key loop of `collate_batch` (pipeline.py lines 67-81)
for one key: `ls` is `[create_tensor(sample[key]) for sample in batch]`.
Non-tensor first element: pass the list through.  Tensor with `num_axis
> 0`: `pad_sequence` plus one `<key>:size<i>` field per axis and
`<key>:size0`.  Tensor with 0 axes: `torch.stack` plus `<key>:size0`.
Returns `none` where torch would raise. -/
def collateKey (key : String) (ls : List Value) : Option (List (String × CValue)) :=
  match ls.head? with
  | none => none
  | some (.intV _) => some [(key, .clist ls)]
  | some (.strV _) => some [(key, .clist ls)]
  | some (.arr0 _) => do
      let xs ← ls.mapM asArr0
      pure [(key, .ctens1 xs), (key ++ ":size0", .cscalar ls.length)]
  | some (.arr1 _) => do
      let ys ← ls.mapM asArr1
      pure [(key ++ ":size1", .ctens1 (ys.map (fun xs => (xs.length : Int)))),
            (key, .ctens2 (padSequence1 ys)),
            (key ++ ":size0", .cscalar ls.length)]
  | some (.arr2 _) => do
      let zs ← ls.mapM asArr2
      let w ← commonWidth? zs
      pure [(key ++ ":size1", .ctens1 (zs.map (fun xss => (xss.length : Int)))),
            (key ++ ":size2", .ctens1 (zs.map (fun _ => (w : Int)))),
            (key, .ctens3 (padSequence2 w zs)),
            (key ++ ":size0", .cscalar ls.length)]

/-- The list `[sample[key] for sample in batch]`; `none` on a `KeyError`. -/
def getAll (batch : List Record) (key : String) : Option (List Value) :=
  batch.mapM (fun r => lookupR r key)

/-- The key loop of `collate_batch`, over `data_keys`. -/
def collKeys (batch : List Record) : List String → Option (List (String × CValue))
  | [] => some []
  | k :: ks => do
      let ls ← getAll batch k
      let part ← collateKey k ls
      let rest ← collKeys batch ks
      pure (part ++ rest)

/-- Model of `collate_batch` (pipeline.py lines 54-83): assert the batch non-empty,
take `data_keys` from the first record, and collate key by key. -/
def collate_batch (batch : List Record) : Option (List (String × CValue)) :=
  match batch with
  | [] => none
  | r0 :: _ => collKeys batch (r0.map Prod.fst)

example : collate_batch [[("x", .arr1 [1, 2, 3])], [("x", .arr1 [1, 2])]] =
    some [("x:size1", .ctens1 [3, 2]), ("x", .ctens2 [[1, 2, 3], [1, 2, 0]]),
          ("x:size0", .cscalar 2)] := by decide

/-! ## NumbersDict (modelled from the spec) -/

/-- Modelled from the spec: `returnn.util.basic.NumbersDict`, used by the
pipeline but whose code is not among the sources.  Per spec section 3 and
section 9 it is a mapping field name -> number with an optional broadcast
value applying to every field not listed (`NumbersDict(int)` sets only the
broadcast value, `NumbersDict(dict)` only per-field entries; a missing
entry with no broadcast value means no entry, e.g. an unbounded budget). -/
structure NumbersDict where
  value : Option Nat
  dict : List (String × Nat)
deriving DecidableEq, Repr

/-- Lookup `nd[k]`: the per-field entry if present, else the broadcast value, else
`none` (a Python `KeyError`). -/
def NumbersDict.get? (nd : NumbersDict) (k : String) : Option Nat :=
  match nd.dict.lookup k with
  | some v => some v
  | none => nd.value

/-- Modelled from the spec: `NumbersDict.min_value()`, the minimum over the
per-field entries and the broadcast value; `none` when there is nothing to
take a minimum of (Python `min([])` raises). -/
def NumbersDict.minValue? (nd : NumbersDict) : Option Nat :=
  match nd.value, nd.dict.map Prod.snd with
  | some v, vs => some (vs.foldr Nat.min v)
  | none, [] => none
  | none, v :: vs => some (vs.foldr Nat.min v)

/-! ## Chunker (`ChunkingIterDataPipe`, pipeline.py lines 86-198) -/

/-- Python `len(value)`: defined for 1-D/2-D arrays and
strings; `none` (a `TypeError`) for plain ints and 0-D arrays. -/
def lenV : Value → Option Nat
  | .arr1 xs => some xs.length
  | .arr2 xss => some xss.length
  | .strV s => some s.length
  | _ => none

/-- Python slice `value[start : start + size]`. -/
def sliceV (v : Value) (start size : Nat) : Value :=
  match v with
  | .arr1 xs => .arr1 ((xs.drop start).take size)
  | .arr2 xss => .arr2 ((xss.drop start).take size)
  | .strV s => .strV ((s.drop start).take size)
  | v => v

/-- Python `range(0, stop, step)` for `step > 0`: the multiples of `step`
below `stop` (it has `ceil(stop/step)` elements). -/
def pyRange (stop step : Nat) : List Nat :=
  (List.range ((stop + step - 1) / step)).map (fun k => k * step)

/-- The chunk list comprehension (pipeline.py lines 135-137):
`[data[start : start + size] for start in range(0, len(data), step)]`;
`none` where `len(data)` raises. -/
def chunksOfV (v : Value) (size step : Nat) : Option (List Value) := do
  let L ← lenV v
  pure ((pyRange L step).map (fun s => sliceV v s size))

/-- The number of chunks the chunker computes for key `k` of record `r`
(`none` when any of the lookups or `len` raises). -/
def chunkCount? (size step : NumbersDict) (r : Record) (k : String) : Option Nat := do
  let sz ← size.get? k
  let st ← step.get? k
  let data ← lookupR r k
  let cs ← chunksOfV data sz st
  pure cs.length

/-- The `for data_key in chunking_data_keys` loop of the chunker
(pipeline.py lines 130-146): accumulate `data_chunks` and check that every
key yields the same number of chunks (`num` is the running `num_chunks`). -/
def chunkRecordLoop (size step : NumbersDict) (r : Record) :
    List String → Option Nat → List (String × List Value) →
    Except String (Option Nat × List (String × List Value))
  | [], num, acc => .ok (num, acc)
  | k :: ks, num, acc =>
      match size.get? k with
      | none => .error "KeyError: chunk size"
      | some sz =>
      match step.get? k with
      | none => .error "KeyError: chunk step"
      | some st =>
      match lookupR r k with
      | none => .error "KeyError: data"
      | some data =>
      match chunksOfV data sz st with
      | none => .error "TypeError: len() of unsized object"
      | some chunks =>
      match num with
      | none => chunkRecordLoop size step r ks (some chunks.length) (acc ++ [(k, chunks)])
      | some n =>
          if n = chunks.length then
            chunkRecordLoop size step r ks (some n) (acc ++ [(k, chunks)])
          else
            .error "Chunking resulted in different number of chunks for different data keys."

/-- Chunk one source record (the body of the chunker's record loop,
pipeline.py lines 127-161): compute all keys' chunks, check the counts
agree and are non-zero, and emit one output record per chunk index (chunked
keys first, then the remaining keys of `r` passed through; `deepcopy` is
the identity in this pure model). -/
def chunkRecord (size step : NumbersDict) (keys : List String) (r : Record) :
    Except String (List Record) :=
  Except.bind (chunkRecordLoop size step r keys none []) (fun p =>
    if p.1.getD 0 = 0 then .error "Bug: no chunk produced from current sequence."
    else
      .ok ((List.range (p.1.getD 0)).map (fun i =>
        p.2.map (fun kc => (kc.1, (kc.2.get? i).getD (.intV 0))) ++
          r.filter (fun kv => (p.2.lookup kv.1).isNone))))

/-- Python `list.remove(x)`: drop the first occurrence of `x`, raising a
`ValueError` when `x` is absent. -/
def listRemove (a : String) : List String → Except String (List String)
  | [] => .error "ValueError: list.remove(x): x not in list"
  | b :: bs =>
      if b = a then .ok bs
      else Except.map (fun l => b :: l) (listRemove a bs)

/-- Inference of `chunking_data_keys` from the first record when the chunk
size spec has no explicit keys (pipeline.py lines 119-125): all keys of the
record, with `seq_tag` and `seq_idx` removed, checked non-empty. -/
def inferChunkingKeys (r : Record) : Except String (List String) :=
  Except.bind (listRemove "seq_tag" (r.map Prod.fst)) (fun ks1 =>
    Except.bind (listRemove "seq_idx" ks1) (fun ks2 =>
      if ks2.isEmpty then .error "Dataset produced sequence without any data."
      else .ok ks2))

/-- The record loop of `ChunkingIterDataPipe.__iter__` (pipeline.py lines
117-161), with `keys` the current `chunking_data_keys` (inferred from the
first record when empty, and then kept for the rest of the iteration). -/
def chunkerGo (size step : NumbersDict) : List String → List Record →
    Except String (List Record)
  | _, [] => .ok []
  | keys, r :: rs =>
      Except.bind (if keys.isEmpty then inferChunkingKeys r else .ok keys) (fun ks2 =>
        Except.bind (chunkRecord size step ks2 r) (fun out =>
          Except.bind (chunkerGo size step ks2 rs) (fun rest =>
            .ok (out ++ rest))))

/-- Model of `ChunkingIterDataPipe.__iter__`: `chunking_data_keys` starts as the
explicit keys of the chunk size spec. -/
def chunkerIter (size step : NumbersDict) (rs : List Record) :
    Except String (List Record) :=
  chunkerGo size step (size.dict.map Prod.fst) rs

/-! ## Chunking-config parsing (`_parse_chunking`, pipeline.py 166-198) -/

/-- One side of the chunking argument: absent, a single int, or a
per-field dict.  (The string and callable forms of `_parse_chunking` are
not modelled; no claim concerns them.) -/
inductive CSpec where
  | cNone
  | cInt (n : Nat)
  | cDict (d : List (String × Nat))
deriving DecidableEq, Repr

/-- The chunking constructor argument: a single value (used for both size
and step) or a `(size, step)` pair. -/
inductive ChunkingArg where
  | single (c : CSpec)
  | pair (size step : CSpec)
deriving DecidableEq, Repr

/-- Constructor `NumbersDict(x)`: an int becomes the broadcast value, a dict the
per-field entries (modelled from the spec, see `NumbersDict`). -/
def toNumbersDict : CSpec → NumbersDict
  | .cNone => ⟨some 0, []⟩
  | .cInt n => ⟨some n, []⟩
  | .cDict d => ⟨none, d⟩

/-- Multiset equality of two key lists, the model of
`sorted(chunk_step.keys()) == sorted(chunk_size.keys())`. -/
def keysEqB (a b : List String) : Bool :=
  a.length = b.length && a.all (fun k => a.count k = b.count k)

/-- Model of `ChunkingIterDataPipe._parse_chunking` (pipeline.py lines 166-198),
which runs at construction time: normalize the argument into the
`(chunk_size, chunk_step)` pair of `NumbersDict`s, checking size positive,
step defaulting to size when `None`/0, key sets equal, step positive. -/
def parseChunking (c : ChunkingArg) : Except String (NumbersDict × NumbersDict) := do
  let (cs, cst) := match c with
    | .single s => (s, CSpec.cNone)
    | .pair a b => (a, b)
  let size := toNumbersDict cs
  let sizeMin ← match size.minValue? with
    | some m => Except.ok m
    | none => Except.error "ValueError: min() arg is an empty sequence"
  if sizeMin = 0 then .error "chunk size must not be negative"
  else
  let step := match cst with
    | .cNone => size
    | .cInt 0 => size
    | s => toNumbersDict s
  if ¬ keysEqB (step.dict.map Prod.fst) (size.dict.map Prod.fst) then
    .error "assert sorted keys equal"
  else
  let stepMin ← match step.minValue? with
    | some m => Except.ok m
    | none => Except.error "ValueError: min() arg is an empty sequence"
  if stepMin = 0 then .error "chunking step must be positive"
  else .ok (size, step)

example : parseChunking (.single (.cInt 3)) = .ok (⟨some 3, []⟩, ⟨some 3, []⟩) := rfl

example : chunkerIter ⟨some 3, []⟩ ⟨some 3, []⟩
    [[("x", .arr1 [0, 1, 2, 3, 4, 5, 6]), ("seq_tag", .strV "t"), ("seq_idx", .intV 0)]] =
    .ok [[("x", .arr1 [0, 1, 2]), ("seq_tag", .strV "t"), ("seq_idx", .intV 0)],
         [("x", .arr1 [3, 4, 5]), ("seq_tag", .strV "t"), ("seq_idx", .intV 0)],
         [("x", .arr1 [6]), ("seq_tag", .strV "t"), ("seq_idx", .intV 0)]] := rfl

/-! ## Batcher (`BatchingIterDataPipe`, pipeline.py lines 202-266) -/

/-- The per-field sequence length of a value (pipeline.py line 249):
`shape[0]` for an array with at least one axis, else 1 (scalars are
treated as length 1). -/
def seqLen : Value → Nat
  | .arr1 xs => xs.length
  | .arr2 xss => xss.length
  | _ => 1

/-- The `sequence_lengths` of a record (pipeline.py lines 247-252): the
per-field lengths as a finite map with default 0 (a `NumbersDict` whose
broadcast value is 0; modelled from the spec, see `NumbersDict`). -/
def sequenceLengths (r : Record) : List (String × Nat) :=
  r.map (fun kv => (kv.1, seqLen kv.2))

/-- Lookup in a default-0 finite map (`NumbersDict(0)`-based accumulators;
modelled from the spec). -/
def ndGet (d : List (String × Nat)) (k : String) : Nat :=
  (d.lookup k).getD 0

/-- Modelled from the spec: `NumbersDict.max`, the elementwise maximum of
two default-0 finite maps (spec section 4.2 `elementwise_max`), with one
entry per key of either map. -/
def ndMax (a b : List (String × Nat)) : List (String × Nat) :=
  ((a.map Prod.fst ++ b.map Prod.fst).dedup).map (fun k => (k, Nat.max (ndGet a k) (ndGet b k)))

/-- Modelled from the spec: multiplying a default-0 finite map by a scalar
(spec section 4.2 `candidate_cost = candidate_max * (len + 1)`); the
default value stays 0. -/
def ndScale (n : Nat) (a : List (String × Nat)) : List (String × Nat) :=
  a.map (fun kc => (kc.1, kc.2 * n))

/-- Modelled from the spec: `NumbersDict.any_compare(cost, budget, >)`
(spec section 4.2 step c): true iff some field of `cost` has a budget
entry (explicit or broadcast) that its cost strictly exceeds.  The cost
map's default value is 0 and never exceeds a budget. -/
def anyExceedB (cost : List (String × Nat)) (budget : NumbersDict) : Bool :=
  cost.any (fun kc =>
    match budget.get? kc.1 with
    | some b => decide (b < kc.2)
    | none => false)

/-- The batcher's accumulator: `current_batch` and
`current_max_sequence_lengths`. -/
structure BatchState where
  cur : List Record
  curMax : List (String × Nat)
deriving DecidableEq, Repr

/-- One iteration of the record loop of `BatchingIterDataPipe.__iter__`
(pipeline.py lines 239-263): flush when `max_seqs` is reached, compute the
candidate cost of including the record, flush before the record when some
field's cost strictly exceeds its budget, else append.  Returns the
batches yielded during this iteration and the new accumulator state. -/
def batchStep (maxBatchSize : NumbersDict) (maxSeqs : Nat) (st : BatchState) (r : Record) :
    List (List Record) × BatchState :=
  let emitted0 := if st.cur.length = maxSeqs then [st.cur] else []
  let st0 := if st.cur.length = maxSeqs then BatchState.mk [] [] else st
  let lens := sequenceLengths r
  let candMax := ndMax st0.curMax lens
  let cost := ndScale (st0.cur.length + 1) candMax
  if ¬ st0.cur.isEmpty ∧ anyExceedB cost maxBatchSize then
    (emitted0 ++ [st0.cur], ⟨[r], lens⟩)
  else
    (emitted0, ⟨st0.cur ++ [r], candMax⟩)

/-- The record loop of `BatchingIterDataPipe.__iter__`: all batches
yielded inside the loop, with the final accumulator state. -/
def batchRun (maxBatchSize : NumbersDict) (maxSeqs : Nat) :
    List Record → BatchState → List (List Record) × BatchState
  | [], st => ([], st)
  | r :: rs, st =>
      ((batchStep maxBatchSize maxSeqs st r).1 ++
         (batchRun maxBatchSize maxSeqs rs (batchStep maxBatchSize maxSeqs st r).2).1,
       (batchRun maxBatchSize maxSeqs rs (batchStep maxBatchSize maxSeqs st r).2).2)

/-- Model of `BatchingIterDataPipe.__iter__` (pipeline.py lines 231-266): the full
emitted batch sequence, including the final non-empty batch unless
`drop_last` is set. -/
def batchingIter (maxBatchSize : NumbersDict) (maxSeqs : Nat) (dropLast : Bool)
    (rs : List Record) : List (List Record) :=
  if ¬ (batchRun maxBatchSize maxSeqs rs ⟨[], []⟩).2.cur.isEmpty ∧ ¬ dropLast then
    (batchRun maxBatchSize maxSeqs rs ⟨[], []⟩).1 ++
      [(batchRun maxBatchSize maxSeqs rs ⟨[], []⟩).2.cur]
  else
    (batchRun maxBatchSize maxSeqs rs ⟨[], []⟩).1

/-- The maximum length of field `k` over the records of a batch (the
quantity `max_length_in_batch(field)` of the spec). -/
def batchMaxLen (batch : List Record) (k : String) : Nat :=
  batch.foldr (fun r m => Nat.max (ndGet (sequenceLengths r) k) m) 0

example :
    batchingIter ⟨some 10, []⟩ 10 false
      [[("x", .arr1 [1, 2, 3])], [("x", .arr1 [1, 2])]] =
    [[[("x", .arr1 [1, 2, 3])], [("x", .arr1 [1, 2])]]] := by decide

example :
    batchingIter ⟨some 10, []⟩ 10 false
      [[("x", .arr1 [1, 2, 3, 4, 5])], [("x", .arr1 [1, 2, 3, 4, 5, 6])]] =
    [[[("x", .arr1 [1, 2, 3, 4, 5])]], [[("x", .arr1 [1, 2, 3, 4, 5, 6])]]] := by decide

/-! ## Helper lemmas -/

theorem pyRange_length (stop step : Nat) :
    (pyRange stop step).length = (stop + step - 1) / step := by
  simp [pyRange]

theorem pyRange_getElem? (stop step k : Nat) :
    (pyRange stop step)[k]? =
      if k < (stop + step - 1) / step then some (k * step) else none := by
  unfold pyRange
  rw [List.getElem?_map]
  by_cases h : k < (stop + step - 1) / step
  · rw [List.getElem?_range h]
    simp [h]
  · rw [List.getElem?_eq_none (by simpa using Nat.le_of_not_lt h)]
    simp [h]

theorem ceil_div_eq (L step : Nat) (hL : 1 ≤ L) (hs : 1 ≤ step) :
    (L + step - 1) / step = 1 + (L - 1) / step := by
  have h1 : L + step - 1 = (L - 1) + step := by omega
  rw [h1, Nat.add_div_right _ hs, Nat.add_comm]

theorem lt_ceil_iff (L step k : Nat) (hL : 1 ≤ L) (hs : 1 ≤ step) :
    k < (L + step - 1) / step ↔ k * step < L := by
  rw [ceil_div_eq L step hL hs]
  have h1 : k < 1 + (L - 1) / step ↔ k ≤ (L - 1) / step := by omega
  rw [h1, Nat.le_div_iff_mul_le hs]
  omega

/-- C3: For every source record and every active field whose value has
length `L ≥ 1`, with chunk size `size` and chunk step `step ≥ 1`, the
Chunker's window computation (`chunksOfV`, the comprehension of
pipeline.py lines 135-137) produces exactly the windows
`value[k*step : k*step+size]` for every `k` with `k*step < L` (the final
window truncated, never padded), so the number of chunks equals
`1 + (L-1)/step`. -/
theorem chunker_windows (v : Value) (size step L : Nat)
    (hlen : lenV v = some L) (hL : 1 ≤ L) (hs : 1 ≤ step) :
    ∃ cs, chunksOfV v size step = some cs ∧
      cs.length = 1 + (L - 1) / step ∧
      ∀ k : Nat, cs[k]? =
        if k * step < L then some (sliceV v (k * step) size) else none := by
  refine ⟨(pyRange L step).map (fun s => sliceV v s size), ?_, ?_, ?_⟩
  · simp [chunksOfV, hlen]
  · rw [List.length_map, pyRange_length, ceil_div_eq L step hL hs]
  · intro k
    rw [List.getElem?_map, pyRange_getElem?]
    by_cases h : k < (L + step - 1) / step
    · rw [if_pos h, if_pos ((lt_ceil_iff L step k hL hs).mp h)]
      rfl
    · rw [if_neg h, if_neg (fun hc => h ((lt_ceil_iff L step k hL hs).mpr hc))]
      rfl

theorem anyExceedB_iff (cost : List (String × Nat)) (bud : NumbersDict) :
    anyExceedB cost bud = true ↔
      ∃ kc ∈ cost, ∃ b, bud.get? kc.1 = some b ∧ b < kc.2 := by
  unfold anyExceedB
  rw [List.any_eq_true]
  constructor
  · rintro ⟨kc, hm, hp⟩
    refine ⟨kc, hm, ?_⟩
    cases h : bud.get? kc.1 with
    | none => rw [h] at hp; simp at hp
    | some b => rw [h] at hp; exact ⟨b, rfl, of_decide_eq_true hp⟩
  · rintro ⟨kc, hm, b, hb, hlt⟩
    exact ⟨kc, hm, by rw [hb]; exact decide_eq_true hlt⟩

theorem anyExceedB_eq_false (cost : List (String × Nat)) (bud : NumbersDict)
    (h : ∀ kc ∈ cost, ∀ b, bud.get? kc.1 = some b → kc.2 ≤ b) :
    anyExceedB cost bud = false := by
  rw [Bool.eq_false_iff]
  intro hc
  obtain ⟨kc, hm, b, hb, hlt⟩ := (anyExceedB_iff cost bud).mp hc
  exact absurd (h kc hm b hb) (Nat.not_le_of_lt hlt)

/-- C5: in the Batcher's budget decision (pipeline.py lines 254-262),
with a non-empty current batch (that is not being flushed for having
reached `max_seqs`), the incoming record is appended whenever for every
budgeted field the candidate cost — the elementwise max of the current
lengths and the record's lengths, times the new record count — is at most
the budget; the batch is flushed before the record exactly when some
field's candidate cost strictly exceeds its budget.  In particular a
record that exactly fills a budget is accepted. -/
theorem batchStep_budget_decision (maxBS : NumbersDict) (maxSeqs : Nat)
    (st : BatchState) (r : Record)
    (hne : st.cur ≠ []) (hms : st.cur.length ≠ maxSeqs) :
    ((∀ kc ∈ ndScale (st.cur.length + 1) (ndMax st.curMax (sequenceLengths r)), ∀ b,
        maxBS.get? kc.1 = some b → kc.2 ≤ b) →
      batchStep maxBS maxSeqs st r =
        ([], ⟨st.cur ++ [r], ndMax st.curMax (sequenceLengths r)⟩)) ∧
    ((∃ kc ∈ ndScale (st.cur.length + 1) (ndMax st.curMax (sequenceLengths r)), ∃ b,
        maxBS.get? kc.1 = some b ∧ b < kc.2) →
      batchStep maxBS maxSeqs st r = ([st.cur], ⟨[r], sequenceLengths r⟩)) := by
  unfold batchStep
  rw [if_neg hms, if_neg hms]
  constructor
  · intro hle
    rw [if_neg (by
      rintro ⟨-, hex⟩
      rw [anyExceedB_eq_false _ _ hle] at hex
      exact Bool.false_ne_true hex)]
  · intro hex
    rw [if_pos ⟨by simpa [List.isEmpty_iff] using hne, (anyExceedB_iff _ _).mpr hex⟩]
    rfl

/-- Witness for C5: the second concrete scenario of the spec with an
exactly-filling record: one record of length 3 is in the batch, budget
`{x: 6}`, and the incoming record of length 3 gives cost `3 * 2 = 6`,
which does not exceed the budget, so it is appended. -/
theorem batchStep_budget_decision_witness :
    ([[("x", Value.arr1 [1, 2, 3])]] : List Record) ≠ [] ∧
    ([[("x", Value.arr1 [1, 2, 3])]] : List Record).length ≠ 5 ∧
    batchStep ⟨some 6, []⟩ 5 ⟨[[("x", Value.arr1 [1, 2, 3])]], [("x", 3)]⟩
        [("x", Value.arr1 [4, 5, 6])] =
      ([], ⟨[[("x", Value.arr1 [1, 2, 3])], [("x", Value.arr1 [4, 5, 6])]],
            ndMax [("x", 3)] (sequenceLengths [("x", Value.arr1 [4, 5, 6])])⟩) :=
  ⟨by decide, by decide,
   (batchStep_budget_decision ⟨some 6, []⟩ 5
      ⟨[[("x", Value.arr1 [1, 2, 3])]], [("x", 3)]⟩ [("x", Value.arr1 [4, 5, 6])]
      (by decide) (by decide)).1
    (by decide)⟩

/-- C8: for every finite source whose accumulated final batch is non-empty
at end of source, the Batcher emits it exactly when `drop_last` is false,
and no other batch of the emitted sequence is affected by `drop_last`:
the `drop_last = false` sequence is the `drop_last = true` sequence plus
that one final batch. -/
theorem batchingIter_drop_last (maxBS : NumbersDict) (maxSeqs : Nat) (rs : List Record)
    (h : (batchRun maxBS maxSeqs rs ⟨[], []⟩).2.cur ≠ []) :
    batchingIter maxBS maxSeqs false rs =
      batchingIter maxBS maxSeqs true rs ++
        [(batchRun maxBS maxSeqs rs ⟨[], []⟩).2.cur] := by
  unfold batchingIter
  rw [if_pos ⟨by simpa [List.isEmpty_iff] using h, by simp⟩, if_neg (by simp)]

/-- Witness for C8: a single short record leaves a non-empty final batch,
emitted with `drop_last = false` and dropped with `drop_last = true`. -/
theorem batchingIter_drop_last_witness :
    (batchRun ⟨some 10, []⟩ 5 [[("x", Value.arr1 [1, 2])]] ⟨[], []⟩).2.cur ≠ [] ∧
    batchingIter ⟨some 10, []⟩ 5 false [[("x", Value.arr1 [1, 2])]] =
      batchingIter ⟨some 10, []⟩ 5 true [[("x", Value.arr1 [1, 2])]] ++
        [(batchRun ⟨some 10, []⟩ 5 [[("x", Value.arr1 [1, 2])]] ⟨[], []⟩).2.cur] :=
  ⟨by decide, batchingIter_drop_last ⟨some 10, []⟩ 5 [[("x", Value.arr1 [1, 2])]] (by decide)⟩

theorem except_bind_ok (a : α) (f : α → Except ε β) :
    Except.bind (Except.ok a) f = f a := rfl

theorem except_bind_err (e : ε) (f : α → Except ε β) :
    Except.bind (Except.error e : Except ε α) f = Except.error e := rfl

theorem chunkRecordLoop_some (size step : NumbersDict) (r : Record) (n : Nat) :
    ∀ (keys : List String) (acc : List (String × List Value))
      (p : Option Nat × List (String × List Value)),
      chunkRecordLoop size step r keys (some n) acc = .ok p →
      ∀ k ∈ keys, chunkCount? size step r k = some n := by
  intro keys
  induction keys with
  | nil => intro acc p _ k hk; cases hk
  | cons a ks ih =>
    intro acc p h k hk
    unfold chunkRecordLoop at h
    cases hsz : size.get? a with
    | none => simp only [hsz] at h; exact (Except.noConfusion h)
    | some sz =>
    simp only [hsz] at h
    cases hst : step.get? a with
    | none => simp only [hst] at h; exact (Except.noConfusion h)
    | some st =>
    simp only [hst] at h
    cases hd : lookupR r a with
    | none => simp only [hd] at h; exact (Except.noConfusion h)
    | some data =>
    simp only [hd] at h
    cases hc : chunksOfV data sz st with
    | none => simp only [hc] at h; exact (Except.noConfusion h)
    | some chunks =>
    simp only [hc] at h
    by_cases heq : n = chunks.length
    · rw [if_pos heq] at h
      rcases List.mem_cons.mp hk with hka | hks
      · subst hka
        simp [chunkCount?, hsz, hst, hd, hc, heq]
      · exact ih _ _ h k hks
    · rw [if_neg heq] at h
      simp at h

theorem chunkRecordLoop_none (size step : NumbersDict) (r : Record)
    (a : String) (ks : List String) (acc : List (String × List Value))
    (p : Option Nat × List (String × List Value))
    (h : chunkRecordLoop size step r (a :: ks) none acc = .ok p) :
    ∃ n, ∀ k ∈ a :: ks, chunkCount? size step r k = some n := by
  unfold chunkRecordLoop at h
  cases hsz : size.get? a with
  | none => simp only [hsz] at h; exact (Except.noConfusion h)
  | some sz =>
  simp only [hsz] at h
  cases hst : step.get? a with
  | none => simp only [hst] at h; exact (Except.noConfusion h)
  | some st =>
  simp only [hst] at h
  cases hd : lookupR r a with
  | none => simp only [hd] at h; exact (Except.noConfusion h)
  | some data =>
  simp only [hd] at h
  cases hc : chunksOfV data sz st with
  | none => simp only [hc] at h; exact (Except.noConfusion h)
  | some chunks =>
  simp only [hc] at h
  refine ⟨chunks.length, ?_⟩
  intro k hk
  rcases List.mem_cons.mp hk with hka | hks
  · subst hka
    simp [chunkCount?, hsz, hst, hd, hc]
  · exact chunkRecordLoop_some size step r chunks.length ks _ p h k hks

/-- C7: for every source record for which two active fields produce
different window counts, the Chunker raises a fatal error: `chunkRecord`
yields no output records for that record, and the pipeline iteration
aborts with the same error instead of silently truncating or emitting
misaligned chunks. -/
theorem chunker_mismatch_fatal (size step : NumbersDict) (keys : List String)
    (r : Record) (rs : List Record) (k1 k2 : String) (n1 n2 : Nat)
    (h1 : k1 ∈ keys) (h2 : k2 ∈ keys)
    (hc1 : chunkCount? size step r k1 = some n1)
    (hc2 : chunkCount? size step r k2 = some n2)
    (hne : n1 ≠ n2) :
    ∃ e, chunkRecord size step keys r = .error e ∧
      chunkerGo size step keys (r :: rs) = .error e := by
  have hkeys : ¬ keys.isEmpty = true := by
    cases keys with
    | nil => cases h1
    | cons a ks => simp
  cases hloop : chunkRecordLoop size step r keys none [] with
  | error e =>
    have hrec : chunkRecord size step keys r = .error e := by
      unfold chunkRecord
      rw [hloop, except_bind_err]
    refine ⟨e, hrec, ?_⟩
    unfold chunkerGo
    rw [if_neg hkeys, except_bind_ok, hrec, except_bind_err]
  | ok p =>
    exfalso
    cases keys with
    | nil => cases h1
    | cons a ks =>
      obtain ⟨n, hall⟩ := chunkRecordLoop_none size step r a ks [] p hloop
      have e1 : some n1 = some n := hc1 ▸ hall k1 h1
      have e2 : some n2 = some n := hc2 ▸ hall k2 h2
      exact hne (by
        have := e1.trans e2.symm
        exact Option.some.inj this)

/-- Witness for C7: fields `a` (length 2) and `b` (length 3) with chunk
size and step 2 give 1 vs 2 chunks; the record is rejected. -/
theorem chunker_mismatch_fatal_witness :
    ("a" : String) ∈ ["a", "b"] ∧ ("b" : String) ∈ ["a", "b"] ∧
    chunkCount? ⟨some 2, []⟩ ⟨some 2, []⟩
      [("a", Value.arr1 [1, 2]), ("b", Value.arr1 [1, 2, 3])] "a" = some 1 ∧
    chunkCount? ⟨some 2, []⟩ ⟨some 2, []⟩
      [("a", Value.arr1 [1, 2]), ("b", Value.arr1 [1, 2, 3])] "b" = some 2 ∧
    (1 : Nat) ≠ 2 ∧
    ∃ e, chunkRecord ⟨some 2, []⟩ ⟨some 2, []⟩ ["a", "b"]
        [("a", Value.arr1 [1, 2]), ("b", Value.arr1 [1, 2, 3])] = .error e ∧
      chunkerGo ⟨some 2, []⟩ ⟨some 2, []⟩ ["a", "b"]
        [[("a", Value.arr1 [1, 2]), ("b", Value.arr1 [1, 2, 3])]] = .error e :=
  ⟨by decide, by decide, by decide, by decide, by decide,
   chunker_mismatch_fatal ⟨some 2, []⟩ ⟨some 2, []⟩ ["a", "b"]
     [("a", Value.arr1 [1, 2]), ("b", Value.arr1 [1, 2, 3])] [] "a" "b" 1 2
     (by decide) (by decide) (by decide) (by decide) (by decide)⟩

theorem listRemove_not_mem (a : String) (ks : List String) (h : a ∉ ks) :
    listRemove a ks = .error "ValueError: list.remove(x): x not in list" := by
  induction ks with
  | nil => rfl
  | cons b bs ih =>
    unfold listRemove
    rw [if_neg (by rintro rfl; exact h (List.mem_cons_self b bs))]
    rw [ih (fun hm => h (List.mem_cons_of_mem b hm))]
    rfl

theorem listRemove_ok_sub (a : String) (ks ks' : List String)
    (h : listRemove a ks = .ok ks') : ∀ x ∈ ks', x ∈ ks := by
  induction ks generalizing ks' with
  | nil => simp [listRemove] at h
  | cons b bs ih =>
    unfold listRemove at h
    by_cases hb : b = a
    · rw [if_pos hb] at h
      cases h
      intro x hx
      exact List.mem_cons_of_mem b hx
    · rw [if_neg hb] at h
      cases hrec : listRemove a bs with
      | error e => rw [hrec] at h; simp [Except.map] at h
      | ok l =>
        rw [hrec] at h
        simp [Except.map] at h
        subst h
        intro x hx
        rcases List.mem_cons.mp hx with rfl | hl
        · exact List.mem_cons_self x bs
        · exact List.mem_cons_of_mem b (ih l hrec x hl)

theorem listRemove_mem_ok (a : String) (ks : List String) (h : a ∈ ks) :
    ∃ ks', listRemove a ks = .ok ks' := by
  induction ks with
  | nil => cases h
  | cons b bs ih =>
    unfold listRemove
    by_cases hb : b = a
    · exact ⟨bs, by rw [if_pos hb]⟩
    · obtain ⟨ks', hks'⟩ := ih (by
        rcases List.mem_cons.mp h with rfl | hm
        · exact absurd rfl hb
        · exact hm)
      exact ⟨b :: ks', by rw [if_neg hb, hks']; rfl⟩

/-- C10: when the chunk size spec has no explicit keys, the Chunker's key
inference on the first record removes `seq_tag` and `seq_idx` from the
record's key list with `list.remove`, which raises a `ValueError` if
either is absent — even when the record has other chunkable fields, so the
whole iteration fails on its first record. -/
theorem chunker_missing_reserved (size step : NumbersDict) (r : Record) (rs : List Record)
    (hdict : size.dict = [])
    (h : "seq_tag" ∉ r.map Prod.fst ∨ "seq_idx" ∉ r.map Prod.fst) :
    chunkerIter size step (r :: rs) =
      .error "ValueError: list.remove(x): x not in list" := by
  have hinf : inferChunkingKeys r = .error "ValueError: list.remove(x): x not in list" := by
    unfold inferChunkingKeys
    rcases h with htag | hidx
    · rw [listRemove_not_mem _ _ htag, except_bind_err]
    · by_cases htag : "seq_tag" ∈ r.map Prod.fst
      · obtain ⟨ks1, hks1⟩ := listRemove_mem_ok _ _ htag
        rw [hks1, except_bind_ok,
          listRemove_not_mem _ _ (fun hm => hidx (listRemove_ok_sub _ _ _ hks1 _ hm)),
          except_bind_err]
      · rw [listRemove_not_mem _ _ htag, except_bind_err]
  unfold chunkerIter chunkerGo
  rw [hdict]
  rw [if_pos (show (List.map Prod.fst ([] : List (String × Nat))).isEmpty = true from rfl),
    hinf, except_bind_err]

/-- Witness for C10: a first record with a chunkable field `x` and a
`seq_idx` but no `seq_tag` makes iteration fail immediately. -/
theorem chunker_missing_reserved_witness :
    (⟨some 2, []⟩ : NumbersDict).dict = [] ∧
    (("seq_tag" ∉ ([("x", Value.arr1 [1, 2, 3]), ("seq_idx", Value.intV 0)] : Record).map Prod.fst) ∨
      ("seq_idx" ∉ ([("x", Value.arr1 [1, 2, 3]), ("seq_idx", Value.intV 0)] : Record).map Prod.fst)) ∧
    chunkerIter ⟨some 2, []⟩ ⟨some 2, []⟩
        [[("x", Value.arr1 [1, 2, 3]), ("seq_idx", Value.intV 0)]] =
      .error "ValueError: list.remove(x): x not in list" :=
  ⟨rfl, Or.inl (by decide),
   chunker_missing_reserved ⟨some 2, []⟩ ⟨some 2, []⟩
     [("x", Value.arr1 [1, 2, 3]), ("seq_idx", Value.intV 0)] [] rfl
     (Or.inl (by decide))⟩

/-- Counterexample for C6: the claim says an empty active field set is
detected with a configuration error at construction time, before
iteration.  But construction (`_parse_chunking`) succeeds for scalar
chunking `2`, and a dataset whose records hold only `seq_tag` and
`seq_idx` fails only during iteration, on the first record. -/
theorem chunker_empty_active_cex :
    parseChunking (ChunkingArg.single (CSpec.cInt 2)) =
      .ok (⟨some 2, []⟩, ⟨some 2, []⟩) ∧
    chunkerIter ⟨some 2, []⟩ ⟨some 2, []⟩
        [[("seq_tag", Value.strV "t"), ("seq_idx", Value.intV 0)]] =
      .error "Dataset produced sequence without any data." :=
  ⟨rfl, rfl⟩

/-- C6 (amended): when the chunk size spec has no explicit keys, the
active field set is every field of the first record except `seq_tag` and
`seq_idx`, and if that set is empty the pipeline fails with an assertion
error while processing the first record during iteration (construction
succeeds; the check is not at construction time). -/
theorem chunker_empty_active_set (size step : NumbersDict) (r : Record)
    (rs : List Record) (ks1 : List String)
    (hdict : size.dict = [])
    (h1 : listRemove "seq_tag" (r.map Prod.fst) = .ok ks1)
    (h2 : listRemove "seq_idx" ks1 = .ok []) :
    chunkerIter size step (r :: rs) =
      .error "Dataset produced sequence without any data." := by
  have hinf : inferChunkingKeys r = .error "Dataset produced sequence without any data." := by
    unfold inferChunkingKeys
    rw [h1, except_bind_ok, h2, except_bind_ok]
    rfl
  unfold chunkerIter chunkerGo
  rw [hdict]
  rw [if_pos (show (List.map Prod.fst ([] : List (String × Nat))).isEmpty = true from rfl),
    hinf, except_bind_err]

/-- Witness for C6 (amended): a record with only the two reserved fields
has an empty inferred active set and fails on the first record. -/
theorem chunker_empty_active_set_witness :
    (⟨some 2, []⟩ : NumbersDict).dict = [] ∧
    listRemove "seq_tag"
        (([("seq_tag", Value.strV "t"), ("seq_idx", Value.intV 0)] : Record).map Prod.fst) =
      .ok ["seq_idx"] ∧
    listRemove "seq_idx" ["seq_idx"] = .ok [] ∧
    chunkerIter ⟨some 2, []⟩ ⟨some 2, []⟩
        [[("seq_tag", Value.strV "t"), ("seq_idx", Value.intV 0)]] =
      .error "Dataset produced sequence without any data." :=
  ⟨rfl, rfl, rfl,
   chunker_empty_active_set ⟨some 2, []⟩ ⟨some 2, []⟩
     [("seq_tag", Value.strV "t"), ("seq_idx", Value.intV 0)] [] ["seq_idx"] rfl rfl rfl⟩

/-- Witness for C3 at the spec's concrete scenario: `x = range(7)`,
`size = 3`, `step = 3` gives the 3 chunks `[0,1,2], [3,4,5], [6]`. -/
theorem chunker_windows_witness :
    lenV (Value.arr1 [0, 1, 2, 3, 4, 5, 6]) = some 7 ∧ 1 ≤ 7 ∧ 1 ≤ 3 ∧
    ∃ cs, chunksOfV (Value.arr1 [0, 1, 2, 3, 4, 5, 6]) 3 3 = some cs ∧
      cs.length = 1 + (7 - 1) / 3 ∧
      ∀ k : Nat, cs[k]? =
        if k * 3 < 7 then some (sliceV (Value.arr1 [0, 1, 2, 3, 4, 5, 6]) (k * 3) 3) else none :=
  ⟨by decide, by decide, by decide,
   chunker_windows (Value.arr1 [0, 1, 2, 3, 4, 5, 6]) 3 3 7 (by decide) (by decide) (by decide)⟩

/-! ## Collator lemmas (C1, C4) -/

theorem mapM_option_length {α β : Type _} (f : α → Option β) :
    ∀ (ls : List α) (ys : List β), ls.mapM f = some ys → ys.length = ls.length := by
  intro ls
  induction ls with
  | nil =>
    intro ys h
    rw [List.mapM_nil] at h
    cases h
    rfl
  | cons a l ih =>
    intro ys h
    rw [List.mapM_cons] at h
    obtain ⟨b, hb, h⟩ := Option.bind_eq_some.mp h
    obtain ⟨bs, hbs, h⟩ := Option.bind_eq_some.mp h
    cases h
    simp [ih bs hbs]

theorem mapM_asArr1_shape (ls : List Value) (ys : List (List Int))
    (h : ls.mapM asArr1 = some ys) :
    ls.map (fun v => (shape0 v : Int)) = ys.map (fun xs => (xs.length : Int)) := by
  induction ls generalizing ys with
  | nil =>
    rw [List.mapM_nil] at h
    cases h
    rfl
  | cons a l ih =>
    rw [List.mapM_cons] at h
    obtain ⟨b, hb, h⟩ := Option.bind_eq_some.mp h
    obtain ⟨bs, hbs, h⟩ := Option.bind_eq_some.mp h
    cases h
    cases a with
    | arr1 xs =>
      cases hb
      rw [List.map_cons, List.map_cons, ih bs hbs]
      rfl
    | arr0 v => simp [asArr1] at hb
    | arr2 xss => simp [asArr1] at hb
    | intV n => simp [asArr1] at hb
    | strV s => simp [asArr1] at hb

theorem mapM_asArr2_shape (ls : List Value) (zs : List (List (List Int)))
    (h : ls.mapM asArr2 = some zs) :
    ls.map (fun v => (shape0 v : Int)) = zs.map (fun xss => (xss.length : Int)) := by
  induction ls generalizing zs with
  | nil =>
    rw [List.mapM_nil] at h
    cases h
    rfl
  | cons a l ih =>
    rw [List.mapM_cons] at h
    obtain ⟨b, hb, h⟩ := Option.bind_eq_some.mp h
    obtain ⟨bs, hbs, h⟩ := Option.bind_eq_some.mp h
    cases h
    cases a with
    | arr2 xss =>
      cases hb
      rw [List.map_cons, List.map_cons, ih bs hbs]
      rfl
    | arr0 v => simp [asArr2] at hb
    | arr1 xs => simp [asArr2] at hb
    | intV n => simp [asArr2] at hb
    | strV s => simp [asArr2] at hb

theorem mapM_asArr1_of_map (ys : List (List Int)) :
    (ys.map Value.arr1).mapM asArr1 = some ys := by
  induction ys with
  | nil => rfl
  | cons a l ih =>
    rw [List.map_cons, List.mapM_cons, ih]
    rfl

theorem collKeys_extract (batch : List Record) :
    ∀ (ks : List String) (res : List (String × CValue)),
      collKeys batch ks = some res → ∀ k ∈ ks,
        ∃ ls part, getAll batch k = some ls ∧ collateKey k ls = some part ∧
          ∀ p ∈ part, p ∈ res := by
  intro ks
  induction ks with
  | nil => intro res _ k hk; cases hk
  | cons a ks ih =>
    intro res h k hk
    unfold collKeys at h
    obtain ⟨ls, hls, h⟩ := Option.bind_eq_some.mp h
    obtain ⟨part, hpart, h⟩ := Option.bind_eq_some.mp h
    obtain ⟨rest, hrest, h⟩ := Option.bind_eq_some.mp h
    cases h
    rcases List.mem_cons.mp hk with rfl | hks
    · exact ⟨ls, part, hls, hpart, fun p hp => List.mem_append_left rest hp⟩
    · obtain ⟨ls', part', hls', hpart', hsub⟩ := ih rest hrest k hks
      exact ⟨ls', part', hls', hpart', fun p hp => List.mem_append_right part (hsub p hp)⟩

theorem collate_batch_extract (batch : List Record) (res : List (String × CValue))
    (k : String)
    (hc : collate_batch batch = some res)
    (hk : k ∈ (batch.headD []).map Prod.fst) :
    ∃ ls part, getAll batch k = some ls ∧ collateKey k ls = some part ∧
      ∀ p ∈ part, p ∈ res := by
  cases batch with
  | nil => exact absurd hc (by simp [collate_batch])
  | cons r0 bs =>
    exact collKeys_extract (r0 :: bs) (r0.map Prod.fst) res hc k hk

theorem maxLenN_ge {α : Type _} (ls : List (List α)) (xs : List α) (h : xs ∈ ls) :
    xs.length ≤ maxLenN ls := by
  induction ls with
  | nil => cases h
  | cons a l ih =>
    rcases List.mem_cons.mp h with rfl | hm
    · exact Nat.le_max_left _ _
    · exact Nat.le_trans (ih hm) (Nat.le_max_right _ _)

theorem padTo_length (m : Nat) (xs : List Int) (h : xs.length ≤ m) :
    (padTo m xs).length = m := by
  simp [padTo]
  omega

theorem padTo_getElem?_lt (m : Nat) (xs : List Int) (j : Nat) (h : j < xs.length) :
    (padTo m xs)[j]? = xs[j]? :=
  List.getElem?_append_left h

theorem padTo_getElem?_ge (m : Nat) (xs : List Int) (j : Nat)
    (h1 : xs.length ≤ j) (h2 : j < m) :
    (padTo m xs)[j]? = some 0 := by
  unfold padTo
  rw [List.getElem?_append_right h1]
  rw [List.getElem?_replicate_of_lt (by omega)]

theorem collateKey_cons_arr1 (key : String) (y : List Int) (ys : List (List Int)) :
    collateKey key (Value.arr1 y :: ys.map Value.arr1) =
      some [(key ++ ":size1", CValue.ctens1 ((y :: ys).map (fun xs => (xs.length : Int)))),
            (key, CValue.ctens2 (padSequence1 (y :: ys))),
            (key ++ ":size0", CValue.cscalar (y :: ys).length)] := by
  have hm : (Value.arr1 y :: ys.map Value.arr1).mapM asArr1 = some (y :: ys) := by
    have h := mapM_asArr1_of_map (y :: ys)
    rwa [List.map_cons] at h
  have step : collateKey key (Value.arr1 y :: ys.map Value.arr1) =
      Option.bind ((Value.arr1 y :: ys.map Value.arr1).mapM asArr1) (fun ys2 =>
        some [(key ++ ":size1", CValue.ctens1 (ys2.map (fun xs => (xs.length : Int)))),
              (key, CValue.ctens2 (padSequence1 ys2)),
              (key ++ ":size0",
                CValue.cscalar (Value.arr1 y :: ys.map Value.arr1).length)]) := rfl
  rw [step, hm]
  simp [Option.bind, List.length_map]

/-- Counterexample for C1: the claim says collate pads along *every* axis
to the per-axis maximum.  For a batch of two 2-D arrays of shapes
`(1, 2)` and `(1, 3)` per-axis padding would produce a stacked `(2, 1, 3)`
result, but the code's `pad_sequence` pads only the leading axis and
raises a `RuntimeError` on differing trailing extents, so collation
produces no output at all. -/
theorem collate_pad_cex :
    collate_batch [[("x", Value.arr2 [[1, 2]])], [("x", Value.arr2 [[1, 2, 3]])]] = none := by
  decide

/-- C1 (amended): for every non-empty batch whose records' values for a
field are 1-D numeric arrays, collate right-pads every record's array
with zeros along its (single, leading) axis to the maximum length observed
in the batch, stacks the padded arrays along a new leading batch axis, and
every padded position beyond a record's original length holds zero, while
the positions before it hold the original entries.  (Padding happens along
the leading axis only; multi-axis values whose trailing extents differ are
rejected, see the counterexample.) -/
theorem collate_pad_leading (batch : List Record) (res : List (String × CValue))
    (k : String) (ys : List (List Int))
    (hc : collate_batch batch = some res)
    (hk : k ∈ (batch.headD []).map Prod.fst)
    (hys : getAll batch k = some (ys.map Value.arr1)) :
    ∃ zss, (k, CValue.ctens2 zss) ∈ res ∧ zss.length = batch.length ∧
      ∀ (i : Nat) (xs : List Int), ys[i]? = some xs →
        ∃ zs : List Int, zss[i]? = some zs ∧ zs.length = maxLenN ys ∧
          (∀ j, j < xs.length → zs[j]? = xs[j]?) ∧
          (∀ j, xs.length ≤ j → j < maxLenN ys → zs[j]? = some (0 : Int)) := by
  obtain ⟨ls, part, hls, hpart, hsub⟩ := collate_batch_extract batch res k hc hk
  have hlseq : ls = ys.map Value.arr1 := by
    have := hls.symm.trans hys
    exact Option.some.inj this
  subst hlseq
  have hlen : (ys.map Value.arr1).length = batch.length :=
    mapM_option_length _ batch (ys.map Value.arr1) hls
  cases ys with
  | nil =>
    exfalso
    cases batch with
    | nil => exact absurd hc (by simp [collate_batch])
    | cons r0 bs => simp at hlen
  | cons y ys' =>
    rw [List.map_cons, collateKey_cons_arr1] at hpart
    have hmem : (k, CValue.ctens2 (padSequence1 (y :: ys'))) ∈ part := by
      cases hpart
      exact List.mem_cons_of_mem _ (List.mem_cons_self _ _)
    refine ⟨padSequence1 (y :: ys'), hsub _ hmem, ?_, ?_⟩
    · rw [padSequence1, List.length_map]
      simp only [List.length_cons, List.length_map] at hlen ⊢
      omega
    · intro i xs hi
      refine ⟨padTo (maxLenN (y :: ys')) xs, ?_, ?_, ?_, ?_⟩
      · rw [padSequence1, List.getElem?_map, hi]
        rfl
      · exact padTo_length _ _ (maxLenN_ge _ _ (List.getElem?_mem hi))
      · intro j hj
        exact padTo_getElem?_lt _ _ _ hj
      · intro j hj1 hj2
        exact padTo_getElem?_ge _ _ _ hj1 hj2

/-- Witness for C1 (amended) at the spec's concrete scenario:
records `[{x:[1,2,3]}, {x:[1,2]}]` collate to `x = [[1,2,3],[1,2,0]]`. -/
theorem collate_pad_leading_witness :
    collate_batch [[("x", Value.arr1 [1, 2, 3])], [("x", Value.arr1 [1, 2])]] =
      some [("x:size1", CValue.ctens1 [3, 2]),
            ("x", CValue.ctens2 [[1, 2, 3], [1, 2, 0]]),
            ("x:size0", CValue.cscalar 2)] ∧
    ("x" : String) ∈
      (([[("x", Value.arr1 [1, 2, 3])], [("x", Value.arr1 [1, 2])]] :
          List Record).headD []).map Prod.fst ∧
    getAll [[("x", Value.arr1 [1, 2, 3])], [("x", Value.arr1 [1, 2])]] "x" =
      some ([[1, 2, 3], [1, 2]].map Value.arr1) ∧
    ∃ zss,
      ("x", CValue.ctens2 zss) ∈
        [("x:size1", CValue.ctens1 [3, 2]),
         ("x", CValue.ctens2 [[1, 2, 3], [1, 2, 0]]),
         ("x:size0", CValue.cscalar 2)] ∧
      zss.length =
        ([[("x", Value.arr1 [1, 2, 3])], [("x", Value.arr1 [1, 2])]] : List Record).length ∧
      ∀ (i : Nat) (xs : List Int), ([[1, 2, 3], [1, 2]] : List (List Int))[i]? = some xs →
        ∃ zs : List Int, zss[i]? = some zs ∧ zs.length = maxLenN [[1, 2, 3], [1, 2]] ∧
          (∀ j, j < xs.length → zs[j]? = xs[j]?) ∧
          (∀ j, xs.length ≤ j → j < maxLenN [[1, 2, 3], [1, 2]] → zs[j]? = some (0 : Int)) :=
  ⟨by decide, by decide, by decide,
   collate_pad_leading [[("x", Value.arr1 [1, 2, 3])], [("x", Value.arr1 [1, 2])]]
     [("x:size1", CValue.ctens1 [3, 2]),
      ("x", CValue.ctens2 [[1, 2, 3], [1, 2, 0]]),
      ("x:size0", CValue.cscalar 2)] "x" [[1, 2, 3], [1, 2]]
     (by decide) (by decide) (by decide)⟩

theorem collateKey_cons_arr1_bind (key : String) (y : List Int) (ls' : List Value) :
    collateKey key (Value.arr1 y :: ls') =
      Option.bind ((Value.arr1 y :: ls').mapM asArr1) (fun ys =>
        some [(key ++ ":size1", CValue.ctens1 (ys.map (fun xs => (xs.length : Int)))),
              (key, CValue.ctens2 (padSequence1 ys)),
              (key ++ ":size0", CValue.cscalar (Value.arr1 y :: ls').length)]) := rfl

theorem collateKey_cons_arr2_bind (key : String) (y : List (List Int)) (ls' : List Value) :
    collateKey key (Value.arr2 y :: ls') =
      Option.bind ((Value.arr2 y :: ls').mapM asArr2) (fun zs =>
        Option.bind (commonWidth? zs) (fun w =>
          some [(key ++ ":size1", CValue.ctens1 (zs.map (fun xss => (xss.length : Int)))),
                (key ++ ":size2", CValue.ctens1 (zs.map (fun _ => (w : Int)))),
                (key, CValue.ctens3 (padSequence2 w zs)),
                (key ++ ":size0", CValue.cscalar (Value.arr2 y :: ls').length)])) := rfl

/-- C4: for every non-empty batch whose collation succeeds and every field
whose values are numeric arrays with at least one axis, the collated
output's derived field `<field>:size1` holds the pre-pad leading-axis
extents (`shape[0]`) of the records' values, in input batch order, and
`<field>:size0` equals the number of records in the batch. -/
theorem collate_sizes (batch : List Record) (res : List (String × CValue))
    (k : String) (ls : List Value)
    (hc : collate_batch batch = some res)
    (hk : k ∈ (batch.headD []).map Prod.fst)
    (hls : getAll batch k = some ls)
    (harr : ∀ v ∈ ls, isArr v = true) :
    (k ++ ":size1", CValue.ctens1 (ls.map (fun v => (shape0 v : Int)))) ∈ res ∧
    (k ++ ":size0", CValue.cscalar batch.length) ∈ res := by
  obtain ⟨ls2, part, hls2, hpart, hsub⟩ := collate_batch_extract batch res k hc hk
  have hlseq : ls2 = ls := Option.some.inj (hls2.symm.trans hls)
  subst hlseq
  have hlen : ls2.length = batch.length := mapM_option_length _ batch ls2 hls
  cases ls2 with
  | nil =>
    exfalso
    cases batch with
    | nil => exact absurd hc (by simp [collate_batch])
    | cons r0 bs => simp at hlen
  | cons v0 ls' =>
    have h0 := harr v0 (List.mem_cons_self v0 ls')
    cases v0 with
    | arr0 v => simp [isArr] at h0
    | intV n => simp [isArr] at h0
    | strV s => simp [isArr] at h0
    | arr1 y =>
      rw [collateKey_cons_arr1_bind] at hpart
      obtain ⟨ys, hys, heq⟩ := Option.bind_eq_some.mp hpart
      have hpeq : part =
          [(k ++ ":size1", CValue.ctens1 (ys.map (fun xs => (xs.length : Int)))),
           (k, CValue.ctens2 (padSequence1 ys)),
           (k ++ ":size0", CValue.cscalar (Value.arr1 y :: ls').length)] :=
        (Option.some.inj heq).symm
      have hshape := mapM_asArr1_shape (Value.arr1 y :: ls') ys hys
      constructor
      · refine hsub _ ?_
        rw [hpeq, hshape]
        exact List.mem_cons_self _ _
      · refine hsub _ ?_
        rw [hpeq, ← hlen]
        exact List.mem_cons_of_mem _ (List.mem_cons_of_mem _ (List.mem_cons_self _ _))
    | arr2 y =>
      rw [collateKey_cons_arr2_bind] at hpart
      obtain ⟨zs, hzs, heq⟩ := Option.bind_eq_some.mp hpart
      obtain ⟨w, hw, heq⟩ := Option.bind_eq_some.mp heq
      have hpeq : part =
          [(k ++ ":size1", CValue.ctens1 (zs.map (fun xss => (xss.length : Int)))),
           (k ++ ":size2", CValue.ctens1 (zs.map (fun _ => (w : Int)))),
           (k, CValue.ctens3 (padSequence2 w zs)),
           (k ++ ":size0", CValue.cscalar (Value.arr2 y :: ls').length)] :=
        (Option.some.inj heq).symm
      have hshape := mapM_asArr2_shape (Value.arr2 y :: ls') zs hzs
      constructor
      · refine hsub _ ?_
        rw [hpeq, hshape]
        exact List.mem_cons_self _ _
      · refine hsub _ ?_
        rw [hpeq, ← hlen]
        exact List.mem_cons_of_mem _ (List.mem_cons_of_mem _
          (List.mem_cons_of_mem _ (List.mem_cons_self _ _)))

/-- Witness for C4 at the spec's concrete scenario:
`x:size1 = [3, 2]` and `x:size0 = 2`. -/
theorem collate_sizes_witness :
    collate_batch [[("x", Value.arr1 [1, 2, 3])], [("x", Value.arr1 [1, 2])]] =
      some [("x:size1", CValue.ctens1 [3, 2]),
            ("x", CValue.ctens2 [[1, 2, 3], [1, 2, 0]]),
            ("x:size0", CValue.cscalar 2)] ∧
    ("x" : String) ∈
      (([[("x", Value.arr1 [1, 2, 3])], [("x", Value.arr1 [1, 2])]] :
          List Record).headD []).map Prod.fst ∧
    getAll [[("x", Value.arr1 [1, 2, 3])], [("x", Value.arr1 [1, 2])]] "x" =
      some [Value.arr1 [1, 2, 3], Value.arr1 [1, 2]] ∧
    (∀ v ∈ [Value.arr1 [1, 2, 3], Value.arr1 [1, 2]], isArr v = true) ∧
    ("x:size1",
      CValue.ctens1 ([Value.arr1 [1, 2, 3], Value.arr1 [1, 2]].map
        (fun v => (shape0 v : Int)))) ∈
      [("x:size1", CValue.ctens1 [3, 2]),
       ("x", CValue.ctens2 [[1, 2, 3], [1, 2, 0]]),
       ("x:size0", CValue.cscalar 2)] ∧
    ("x:size0",
      CValue.cscalar ([[("x", Value.arr1 [1, 2, 3])], [("x", Value.arr1 [1, 2])]] :
        List Record).length) ∈
      [("x:size1", CValue.ctens1 [3, 2]),
       ("x", CValue.ctens2 [[1, 2, 3], [1, 2, 0]]),
       ("x:size0", CValue.cscalar 2)] := by
  refine ⟨by decide, by decide, by decide, by decide, ?_, ?_⟩
  · exact (collate_sizes [[("x", Value.arr1 [1, 2, 3])], [("x", Value.arr1 [1, 2])]]
      [("x:size1", CValue.ctens1 [3, 2]),
       ("x", CValue.ctens2 [[1, 2, 3], [1, 2, 0]]),
       ("x:size0", CValue.cscalar 2)] "x" [Value.arr1 [1, 2, 3], Value.arr1 [1, 2]]
      (by decide) (by decide) (by decide) (by decide)).1
  · exact (collate_sizes [[("x", Value.arr1 [1, 2, 3])], [("x", Value.arr1 [1, 2])]]
      [("x:size1", CValue.ctens1 [3, 2]),
       ("x", CValue.ctens2 [[1, 2, 3], [1, 2, 0]]),
       ("x:size0", CValue.cscalar 2)] "x" [Value.arr1 [1, 2, 3], Value.arr1 [1, 2]]
      (by decide) (by decide) (by decide) (by decide)).2

/-! ## Batcher lemmas (C2, C9) -/

theorem lookup_none_of_not_mem_fst {β : Type _} (l : List (String × β)) (k : String)
    (h : k ∉ l.map Prod.fst) : l.lookup k = none := by
  induction l with
  | nil => rfl
  | cons a l ih =>
    simp only [List.map_cons, List.mem_cons, not_or] at h
    rw [List.lookup, show (k == a.1) = false from beq_eq_false_iff_ne.mpr h.1]
    exact ih h.2

theorem lookup_tab (f : String → Nat) (l : List String) (k : String) :
    (l.map (fun x => (x, f x))).lookup k = if k ∈ l then some (f k) else none := by
  induction l with
  | nil => rfl
  | cons a l ih =>
    rw [List.map_cons, List.lookup]
    by_cases hk : k = a
    · subst hk
      rw [show (k == k) = true from by simp]
      show some (f k) = if k ∈ k :: l then some (f k) else none
      rw [if_pos (List.mem_cons_self k l)]
    · rw [show (k == a) = false from beq_eq_false_iff_ne.mpr hk]
      show List.lookup k (List.map (fun x => (x, f x)) l) =
        if k ∈ a :: l then some (f k) else none
      rw [ih]
      by_cases hm : k ∈ l
      · rw [if_pos hm, if_pos (List.mem_cons_of_mem a hm)]
      · rw [if_neg hm, if_neg (by simp [hk, hm])]

theorem ndGet_nil (k : String) : ndGet [] k = 0 := rfl

theorem ndGet_ndMax (a b : List (String × Nat)) (k : String) :
    ndGet (ndMax a b) k = Nat.max (ndGet a k) (ndGet b k) := by
  unfold ndMax
  unfold ndGet
  rw [lookup_tab]
  by_cases hk : k ∈ (a.map Prod.fst ++ b.map Prod.fst).dedup
  · rw [if_pos hk]
    rfl
  · rw [if_neg hk]
    rw [List.mem_dedup, List.mem_append, not_or] at hk
    rw [lookup_none_of_not_mem_fst a k hk.1, lookup_none_of_not_mem_fst b k hk.2]
    rfl

theorem ndMax_entry_or_zero (a b : List (String × Nat)) (k : String) :
    (k, ndGet (ndMax a b) k) ∈ ndMax a b ∨ ndGet (ndMax a b) k = 0 := by
  by_cases hk : k ∈ (a.map Prod.fst ++ b.map Prod.fst).dedup
  · left
    have hval : ndGet (ndMax a b) k = Nat.max (ndGet a k) (ndGet b k) := ndGet_ndMax a b k
    rw [hval]
    exact List.mem_map.mpr ⟨k, hk, rfl⟩
  · right
    rw [ndGet_ndMax]
    rw [List.mem_dedup, List.mem_append, not_or] at hk
    unfold ndGet
    rw [lookup_none_of_not_mem_fst a k hk.1, lookup_none_of_not_mem_fst b k hk.2]
    rfl

theorem batchMaxLen_singleton (r : Record) (k : String) :
    batchMaxLen [r] k = ndGet (sequenceLengths r) k := by
  unfold batchMaxLen
  simp

theorem batchMaxLen_append_singleton (β : List Record) (r : Record) (k : String) :
    batchMaxLen (β ++ [r]) k =
      Nat.max (batchMaxLen β k) (ndGet (sequenceLengths r) k) := by
  induction β with
  | nil =>
    show Nat.max (ndGet (sequenceLengths r) k) 0 = Nat.max 0 (ndGet (sequenceLengths r) k)
    exact Nat.max_comm _ _
  | cons r' β ih =>
    show Nat.max (ndGet (sequenceLengths r') k) (batchMaxLen (β ++ [r]) k) =
      Nat.max (Nat.max (ndGet (sequenceLengths r') k) (batchMaxLen β k))
        (ndGet (sequenceLengths r) k)
    rw [ih]
    exact (Nat.max_assoc _ _ _).symm

theorem batchMaxLen_ge_mem (β : List Record) (r' : Record) (k : String) (h : r' ∈ β) :
    ndGet (sequenceLengths r') k ≤ batchMaxLen β k := by
  induction β with
  | nil => cases h
  | cons a β ih =>
    rcases List.mem_cons.mp h with rfl | hm
    · exact Nat.le_max_left _ _
    · exact Nat.le_trans (ih hm) (Nat.le_max_right _ _)

/-- The per-batch budget invariant of the spec: a batch with two or more
records satisfies `max_length_in_batch(field) * len(batch) ≤ budget(field)`
for every budgeted field. -/
def budgetOK (maxBS : NumbersDict) (β : List Record) : Prop :=
  2 ≤ β.length → ∀ (k : String) (b : Nat), maxBS.get? k = some b →
    batchMaxLen β k * β.length ≤ b

/-- The batcher's loop invariant: `current_max_sequence_lengths` is the
per-field maximum over `current_batch`, and the current batch satisfies
the budget invariant. -/
def stateInv (maxBS : NumbersDict) (st : BatchState) : Prop :=
  (∀ k, ndGet st.curMax k = batchMaxLen st.cur k) ∧ budgetOK maxBS st.cur

theorem append_budgetOK (maxBS : NumbersDict) (curMax : List (String × Nat))
    (cur : List Record) (r : Record)
    (hcm : ∀ k, ndGet curMax k = batchMaxLen cur k)
    (hnoex : cur = [] ∨
      anyExceedB (ndScale (cur.length + 1) (ndMax curMax (sequenceLengths r))) maxBS = false) :
    budgetOK maxBS (cur ++ [r]) := by
  intro h2 k b hb
  rcases hnoex with rfl | hnoex
  · simp at h2
  · have hnot : ¬ anyExceedB (ndScale (cur.length + 1)
        (ndMax curMax (sequenceLengths r))) maxBS = true := by
      rw [hnoex]; exact Bool.false_ne_true
    rw [anyExceedB_iff] at hnot
    push_neg at hnot
    have hcand : ndGet (ndMax curMax (sequenceLengths r)) k * (cur.length + 1) ≤ b := by
      rcases ndMax_entry_or_zero curMax (sequenceLengths r) k with hmem | hzero
      · have hcost : (k, ndGet (ndMax curMax (sequenceLengths r)) k * (cur.length + 1)) ∈
            ndScale (cur.length + 1) (ndMax curMax (sequenceLengths r)) :=
          List.mem_map.mpr ⟨_, hmem, rfl⟩
        have := hnot _ hcost b hb
        omega
      · rw [hzero]
        simp
    have heq : batchMaxLen (cur ++ [r]) k = ndGet (ndMax curMax (sequenceLengths r)) k := by
      rw [batchMaxLen_append_singleton, ndGet_ndMax, hcm k]
    rw [heq]
    have hlen : (cur ++ [r]).length = cur.length + 1 := by simp
    rw [hlen]
    exact hcand

theorem batchStep_inv (maxBS : NumbersDict) (maxSeqs : Nat) (st : BatchState) (r : Record)
    (hInv : stateInv maxBS st) :
    stateInv maxBS (batchStep maxBS maxSeqs st r).2 ∧
    ∀ β ∈ (batchStep maxBS maxSeqs st r).1, budgetOK maxBS β := by
  by_cases hms : st.cur.length = maxSeqs
  · simp only [batchStep, if_pos hms]
    rw [if_neg (by simp)]
    refine ⟨⟨?_, ?_⟩, ?_⟩
    · intro k
      show ndGet (ndMax [] (sequenceLengths r)) k = batchMaxLen ([] ++ [r]) k
      rw [ndGet_ndMax, batchMaxLen_append_singleton]
      rfl
    · exact append_budgetOK maxBS [] [] r (fun k => rfl) (Or.inl rfl)
    · intro β hβ
      rw [List.mem_singleton] at hβ
      subst hβ
      exact hInv.2
  · simp only [batchStep, if_neg hms]
    by_cases hcond : ¬ st.cur.isEmpty = true ∧
        anyExceedB (ndScale (st.cur.length + 1)
          (ndMax st.curMax (sequenceLengths r))) maxBS = true
    · rw [if_pos hcond]
      refine ⟨⟨?_, ?_⟩, ?_⟩
      · intro k
        exact (batchMaxLen_singleton r k).symm
      · intro h2 k b hb
        simp at h2
      · intro β hβ
        simp only [List.nil_append, List.mem_singleton] at hβ
        subst hβ
        exact hInv.2
    · rw [if_neg hcond]
      refine ⟨⟨?_, ?_⟩, ?_⟩
      · intro k
        show ndGet (ndMax st.curMax (sequenceLengths r)) k = batchMaxLen (st.cur ++ [r]) k
        rw [ndGet_ndMax, hInv.1 k, batchMaxLen_append_singleton]
      · refine append_budgetOK maxBS st.curMax st.cur r hInv.1 ?_
        by_cases hne : st.cur.isEmpty = true
        · exact Or.inl (List.isEmpty_iff.mp hne)
        · right
          cases hbool : anyExceedB (ndScale (st.cur.length + 1)
              (ndMax st.curMax (sequenceLengths r))) maxBS with
          | true => exact absurd ⟨hne, hbool⟩ hcond
          | false => rfl
      · intro β hβ
        cases hβ

theorem batchRun_inv (maxBS : NumbersDict) (maxSeqs : Nat) :
    ∀ (rs : List Record) (st : BatchState), stateInv maxBS st →
      stateInv maxBS (batchRun maxBS maxSeqs rs st).2 ∧
      ∀ β ∈ (batchRun maxBS maxSeqs rs st).1, budgetOK maxBS β := by
  intro rs
  induction rs with
  | nil =>
    intro st h
    exact ⟨h, fun β hβ => absurd hβ (by simp [batchRun])⟩
  | cons r rs ih =>
    intro st h
    have hstep := batchStep_inv maxBS maxSeqs st r h
    have hrun := ih _ hstep.1
    simp only [batchRun]
    refine ⟨hrun.1, ?_⟩
    intro β hβ
    rcases List.mem_append.mp hβ with h1 | h1
    · exact hstep.2 β h1
    · exact hrun.2 β h1

theorem batchingIter_budget_aux (maxBS : NumbersDict) (maxSeqs : Nat) (dropLast : Bool)
    (rs : List Record) :
    ∀ β ∈ batchingIter maxBS maxSeqs dropLast rs, budgetOK maxBS β := by
  intro β hβ
  have h0 : stateInv maxBS ⟨[], []⟩ := ⟨fun k => rfl, fun h2 _ _ _ => by simp at h2⟩
  have hrun := batchRun_inv maxBS maxSeqs rs ⟨[], []⟩ h0
  unfold batchingIter at hβ
  split at hβ
  · rcases List.mem_append.mp hβ with h | h
    · exact hrun.2 β h
    · rw [List.mem_singleton] at h
      subst h
      exact hrun.1.2
  · exact hrun.2 β hβ

/-- C2: for every batch the Batcher emits that contains more than one
record, and for every field for which the budget has an entry (explicit or
broadcast), the maximum per-record length of the field in the batch times
the number of records in the batch is at most the budget.  (A batch of
size 1 is exempt: the bound is only claimed for `1 < len(batch)`, so a
single record exceeding its budget still forms a batch of size 1.) -/
theorem batcher_budget_bound (maxBS : NumbersDict) (maxSeqs : Nat) (dropLast : Bool)
    (rs : List Record) (β : List Record) (k : String) (b : Nat)
    (hβ : β ∈ batchingIter maxBS maxSeqs dropLast rs)
    (h2 : 1 < β.length)
    (hb : maxBS.get? k = some b) :
    batchMaxLen β k * β.length ≤ b :=
  batchingIter_budget_aux maxBS maxSeqs dropLast rs β hβ h2 k b hb

/-- Witness for C2: the spec's concrete scenario, records of lengths 3 and
2 with budget `{x: 10}` form one batch of 2 with cost `3 * 2 = 6 ≤ 10`. -/
theorem batcher_budget_bound_witness :
    [[("x", Value.arr1 [1, 2, 3])], [("x", Value.arr1 [1, 2])]] ∈
      batchingIter ⟨some 10, []⟩ 10 false
        [[("x", Value.arr1 [1, 2, 3])], [("x", Value.arr1 [1, 2])]] ∧
    1 < ([[("x", Value.arr1 [1, 2, 3])], [("x", Value.arr1 [1, 2])]] : List Record).length ∧
    (⟨some 10, []⟩ : NumbersDict).get? "x" = some 10 ∧
    batchMaxLen [[("x", Value.arr1 [1, 2, 3])], [("x", Value.arr1 [1, 2])]] "x" *
      ([[("x", Value.arr1 [1, 2, 3])], [("x", Value.arr1 [1, 2])]] : List Record).length ≤ 10 :=
  ⟨by decide, by decide, by decide,
   batcher_budget_bound ⟨some 10, []⟩ 10 false
     [[("x", Value.arr1 [1, 2, 3])], [("x", Value.arr1 [1, 2])]]
     [[("x", Value.arr1 [1, 2, 3])], [("x", Value.arr1 [1, 2])]] "x" 10
     (by decide) (by decide) (by decide)⟩

theorem batchStep_mem (maxBS : NumbersDict) (maxSeqs : Nat) (st : BatchState) (r : Record) :
    (∀ r' ∈ (batchStep maxBS maxSeqs st r).2.cur, r' ∈ st.cur ∨ r' = r) ∧
    (∀ β ∈ (batchStep maxBS maxSeqs st r).1, ∀ r' ∈ β, r' ∈ st.cur) := by
  by_cases hms : st.cur.length = maxSeqs
  · simp only [batchStep, if_pos hms]
    rw [if_neg (by simp)]
    constructor
    · intro r' hr'
      simp only [List.nil_append, List.mem_singleton] at hr'
      exact Or.inr hr'
    · intro β hβ r' hr'
      rw [List.mem_singleton] at hβ
      subst hβ
      exact hr'
  · simp only [batchStep, if_neg hms]
    by_cases hcond : ¬ st.cur.isEmpty = true ∧
        anyExceedB (ndScale (st.cur.length + 1)
          (ndMax st.curMax (sequenceLengths r))) maxBS = true
    · rw [if_pos hcond]
      constructor
      · intro r' hr'
        rw [List.mem_singleton] at hr'
        exact Or.inr hr'
      · intro β hβ r' hr'
        simp only [List.nil_append, List.mem_singleton] at hβ
        subst hβ
        exact hr'
    · rw [if_neg hcond]
      constructor
      · intro r' hr'
        rcases List.mem_append.mp hr' with h | h
        · exact Or.inl h
        · exact Or.inr (List.mem_singleton.mp h)
      · intro β hβ
        cases hβ

theorem batchRun_mem (maxBS : NumbersDict) (maxSeqs : Nat) :
    ∀ (rs : List Record) (st : BatchState),
      (∀ r' ∈ (batchRun maxBS maxSeqs rs st).2.cur, r' ∈ st.cur ∨ r' ∈ rs) ∧
      (∀ β ∈ (batchRun maxBS maxSeqs rs st).1, ∀ r' ∈ β, r' ∈ st.cur ∨ r' ∈ rs) := by
  intro rs
  induction rs with
  | nil =>
    intro st
    exact ⟨fun r' h => Or.inl h, fun β hβ => absurd hβ (by simp [batchRun])⟩
  | cons r rs ih =>
    intro st
    have hstep := batchStep_mem maxBS maxSeqs st r
    have hrun := ih (batchStep maxBS maxSeqs st r).2
    simp only [batchRun]
    constructor
    · intro r' hr'
      rcases hrun.1 r' hr' with h | h
      · rcases hstep.1 r' h with h1 | h1
        · exact Or.inl h1
        · exact Or.inr (h1 ▸ List.mem_cons_self r rs)
      · exact Or.inr (List.mem_cons_of_mem r h)
    · intro β hβ r' hr'
      rcases List.mem_append.mp hβ with h | h
      · exact Or.inl (hstep.2 β h r' hr')
      · rcases hrun.2 β h r' hr' with h1 | h1
        · rcases hstep.1 r' h1 with h2 | h2
          · exact Or.inl h2
          · exact Or.inr (h2 ▸ List.mem_cons_self r rs)
        · exact Or.inr (List.mem_cons_of_mem r h1)

theorem batchingIter_mem (maxBS : NumbersDict) (maxSeqs : Nat) (dropLast : Bool)
    (rs : List Record) (β : List Record) (r' : Record)
    (hβ : β ∈ batchingIter maxBS maxSeqs dropLast rs) (hr : r' ∈ β) : r' ∈ rs := by
  have hrun := batchRun_mem maxBS maxSeqs rs ⟨[], []⟩
  unfold batchingIter at hβ
  split at hβ
  · rcases List.mem_append.mp hβ with h | h
    · rcases hrun.2 β h r' hr with h1 | h1
      · cases h1
      · exact h1
    · rw [List.mem_singleton] at h
      subst h
      rcases hrun.1 r' hr with h1 | h1
      · cases h1
      · exact h1
  · rcases hrun.2 β hβ r' hr with h1 | h1
    · cases h1
    · exact h1

/-- Counterexample for C9: the claim's premise that every field's
per-record length is at least 1 fails for empty arrays (`shape[0] = 0`).
With broadcast budget `B = 1` and `max_seqs = 9`, three records whose only
field is an empty 1-D array cost `0` each, so they accumulate into one
emitted batch of 3 records — more than one record and more than `B`. -/
theorem batcher_broadcast_card_cex :
    [[("x", Value.arr1 [])], [("x", Value.arr1 [])], [("x", Value.arr1 [])]] ∈
      batchingIter ⟨some 1, []⟩ 9 false
        [[("x", Value.arr1 [])], [("x", Value.arr1 [])], [("x", Value.arr1 [])]] ∧
    1 < ([[("x", Value.arr1 [])], [("x", Value.arr1 [])], [("x", Value.arr1 [])]] :
        List Record).length ∧
    ¬ ([[("x", Value.arr1 [])], [("x", Value.arr1 [])], [("x", Value.arr1 [])]] :
        List Record).length ≤ 1 := by
  refine ⟨by decide, by decide, by decide⟩

/-- C9 (amended): when the batch size budget is a single integer `B`
broadcast to every field, and every source record is non-empty with every
field's per-record length at least 1 (scalars count as 1; empty arrays are
excluded, see the counterexample), every emitted batch with more than one
record contains at most `B` records, regardless of `max_seqs`. -/
theorem batcher_broadcast_card (B maxSeqs : Nat) (dropLast : Bool) (rs : List Record)
    (hgood : ∀ r ∈ rs, r ≠ [] ∧ ∀ kv ∈ r, 1 ≤ seqLen kv.2)
    (β : List Record)
    (hβ : β ∈ batchingIter ⟨some B, []⟩ maxSeqs dropLast rs)
    (h2 : 1 < β.length) :
    β.length ≤ B := by
  have hβne : β ≠ [] := by
    intro h
    subst h
    simp at h2
  obtain ⟨r0, hr0⟩ := List.exists_mem_of_ne_nil β hβne
  have hr0rs := batchingIter_mem ⟨some B, []⟩ maxSeqs dropLast rs β r0 hβ hr0
  obtain ⟨hne, hlens⟩ := hgood r0 hr0rs
  cases hr0eq : r0 with
  | nil => exact absurd hr0eq hne
  | cons kv rest =>
    have hget : ndGet (sequenceLengths r0) kv.1 = seqLen kv.2 := by
      rw [hr0eq]
      show (List.lookup kv.1 ((kv.1, seqLen kv.2) :: rest.map
        (fun kv' => (kv'.1, seqLen kv'.2)))).getD 0 = seqLen kv.2
      rw [List.lookup, show (kv.1 == kv.1) = true from by simp]
      rfl
    have h1 : 1 ≤ batchMaxLen β kv.1 := by
      have hkv : 1 ≤ seqLen kv.2 := hlens kv (hr0eq ▸ List.mem_cons_self kv rest)
      have := batchMaxLen_ge_mem β r0 kv.1 hr0
      omega
    have hb : (⟨some B, []⟩ : NumbersDict).get? kv.1 = some B := rfl
    have hbound := batchingIter_budget_aux ⟨some B, []⟩ maxSeqs dropLast rs β hβ h2
      kv.1 B hb
    calc β.length = 1 * β.length := (Nat.one_mul _).symm
      _ ≤ batchMaxLen β kv.1 * β.length := Nat.mul_le_mul_right _ h1
      _ ≤ B := hbound

/-- Witness for C9 (amended): two good records of lengths 3 and 2 with
broadcast budget 10 form one batch of 2, and `2 ≤ 10`. -/
theorem batcher_broadcast_card_witness :
    (∀ r ∈ [[("x", Value.arr1 [1, 2, 3])], [("x", Value.arr1 [1, 2])]],
      r ≠ ([] : Record) ∧ ∀ kv ∈ r, 1 ≤ seqLen kv.2) ∧
    [[("x", Value.arr1 [1, 2, 3])], [("x", Value.arr1 [1, 2])]] ∈
      batchingIter ⟨some 10, []⟩ 99 false
        [[("x", Value.arr1 [1, 2, 3])], [("x", Value.arr1 [1, 2])]] ∧
    1 < ([[("x", Value.arr1 [1, 2, 3])], [("x", Value.arr1 [1, 2])]] : List Record).length ∧
    ([[("x", Value.arr1 [1, 2, 3])], [("x", Value.arr1 [1, 2])]] : List Record).length ≤ 10 :=
  ⟨by decide, by decide, by decide,
   batcher_broadcast_card 10 99 false
     [[("x", Value.arr1 [1, 2, 3])], [("x", Value.arr1 [1, 2])]]
     (by decide)
     [[("x", Value.arr1 [1, 2, 3])], [("x", Value.arr1 [1, 2])]]
     (by decide) (by decide)⟩
